import Mathlib

/-!
Shallow embedding of `modify_dspreset.py` (class `DSPresetModifier`).

Modelling conventions:
* An XML attribute value is a string together with the outcome of Python's
  `float()` on it: `AttrVal.num s q` is a string `s` that parses to the
  numeric value `q`, `AttrVal.raw s` is a string that `float()` rejects.
  Numbers are exact rationals (`ℚ`); `str(float(...))` round-trips in
  Python, which the model captures by writing back `AttrVal.num` carrying
  the computed value.
* An XML element is its tag, an ordered attribute dictionary (association
  list with unique-key update, mirroring a Python dict), and its children.
* The filesystem is an association list from path to file content; a
  `writable` predicate says which paths can be written (a write to a
  non-writable path raises IOError).
-/

inductive AttrVal where
  | num (s : String) (q : ℚ)
  | raw (s : String)
deriving Repr, DecidableEq

/-- The literal attribute string (what `control.get(name)` returns). -/
def AttrVal.str : AttrVal → String
  | num s _ => s
  | raw s => s

/-- Python `float(value)` on an attribute string: `some q` on success,
`none` when it raises `ValueError`. -/
def AttrVal.pyFloat : AttrVal → Option ℚ
  | num _ q => some q
  | raw _ => none

/-- Update an association list the way a Python dict assignment does:
replace the first binding of the key in place, or append a new binding. -/
def alistSet {β : Type} (k : String) (v : β) : List (String × β) → List (String × β)
  | [] => [(k, v)]
  | (k', v') :: rest => if k' = k then (k, v) :: rest else (k', v') :: alistSet k v rest

/-- Dict lookup: first binding of the key, if any. -/
def alistGet {β : Type} (k : String) : List (String × β) → Option β
  | [] => none
  | (k', v') :: rest => if k' = k then some v' else alistGet k rest

inductive Elem where
  | mk (tag : String) (attrib : List (String × AttrVal)) (children : List Elem)
deriving Repr

def Elem.tag : Elem → String
  | .mk t _ _ => t

def Elem.attrib : Elem → List (String × AttrVal)
  | .mk _ a _ => a

def Elem.children : Elem → List Elem
  | .mk _ _ c => c

/-- `element.get(name)`: the attribute value, or `None` when absent. -/
def Elem.get (e : Elem) (name : String) : Option AttrVal :=
  alistGet name e.attrib

/-- `element.set(name, value)`. -/
def Elem.set (e : Elem) (name : String) (v : AttrVal) : Elem :=
  .mk e.tag (alistSet name v e.attrib) e.children

/-- `float(control.get(name, 0))`: a missing attribute defaults to `0`,
a present attribute is parsed with `float()` (failure is `none`). -/
def getNum (e : Elem) (name : String) : Option ℚ :=
  match e.get name with
  | none => some 0
  | some v => v.pyFloat

/-- The membership test of `modify_controls`:
`control.get('type') in selected_types` (a missing attribute yields
`None`, which is never a member of a list of strings). -/
def matchedBy (sel : List String) (c : Elem) : Bool :=
  match c.get "type" with
  | some tv => sel.contains tv.str
  | none => false

/-- Whether all four geometry attributes parse (the `try` body of
`modify_controls` succeeds). -/
def parsesOk (c : Elem) : Bool :=
  (getNum c "x").isSome && (getNum c "y").isSome &&
    (getNum c "width").isSome && (getNum c "height").isSome

/-- `control.get('id', control.get('label', 'unnamed'))`. -/
def displayId (c : Elem) : String :=
  match c.get "id" with
  | some v => v.str
  | none =>
    match c.get "label" with
    | some v => v.str
    | none => "unnamed"

/-- `control.get('type', 'unknown')` — the key used by the load-time index. -/
def typeKey (c : Elem) : String :=
  match c.get "type" with
  | some v => v.str
  | none => "unknown"

mutual

/-- `root.findall('.//control')` restricted to one element: the matching
proper descendants of `e`, in document order. -/
def descTag (t : String) : Elem → List Elem
  | .mk _ _ cs => descTagList t cs

/-- Matching elements of a forest (each root included), document order. -/
def descTagList (t : String) : List Elem → List Elem
  | [] => []
  | c :: cs =>
    (if c.tag = t then [c] else []) ++ descTag t c ++ descTagList t cs

end

mutual

/-- Number of elements with the given tag anywhere in the tree, the
element itself included. -/
def countTag (t : String) : Elem → ℕ
  | .mk tg _ cs => (if tg = t then 1 else 0) + countTagList t cs

/-- Number of elements with the given tag anywhere in a forest. -/
def countTagList (t : String) : List Elem → ℕ
  | [] => 0
  | c :: cs => countTag t c + countTagList t cs

end

/-- The only failure `_load_file` can hit once the XML has parsed: the
root tag is not the `DecentSampler` sentinel (the spec's StructureError). -/
inductive LoadError where
  | structureError
deriving Repr, DecidableEq

/-- State built by `_load_file`: the control list captured in document
order and the control-type index. -/
structure LoadedPreset where
  ui_controls : List Elem
  control_types_found : List (String × ℕ)
deriving Repr

/-- One step of the index loop:
`found[key] = found.get(key, 0) + 1` for `key = control.get('type', 'unknown')`. -/
def bumpType (m : List (String × ℕ)) (c : Elem) : List (String × ℕ) :=
  alistSet (typeKey c) ((alistGet (typeKey c) m).getD 0 + 1) m

/-- The control-type index built by scanning the control list in order. -/
def buildIndex (cs : List Elem) : List (String × ℕ) :=
  cs.foldl bumpType []

/-- `_load_file` from the point where the XML has parsed: reject a root
whose tag is not `DecentSampler`, otherwise collect `.//control` elements
and build the type index (an empty control list only prints a warning). -/
def loadTree (root : Elem) : Except LoadError LoadedPreset :=
  if root.tag = "DecentSampler" then
    let cs := descTag "control" root
    .ok { ui_controls := cs, control_types_found := buildIndex cs }
  else
    .error .structureError

structure Stats where
  found : ℕ
  modified : ℕ
  skipped : ℕ
deriving Repr, DecidableEq

/-- One entry of the `changes` list of `modify_controls`: identity, type,
old and new geometry, and the element reference (modelled as the control's
index in `ui_controls`). -/
structure Change where
  cid : String
  ctype : Option String
  oldX : ℚ
  oldY : ℚ
  oldW : ℚ
  oldH : ℚ
  newX : ℚ
  newY : ℚ
  newW : ℚ
  newH : ℚ
  elemIdx : ℕ
deriving Repr, DecidableEq

/-- The change record built at lines 93–100 for a control at position `i`
whose four attributes parsed to `x`, `y`, `w`, `h`. -/
def mkChange (dx dy dw dh : ℚ) (i : ℕ) (c : Elem) (x y w h : ℚ) : Change :=
  { cid := displayId c, ctype := (c.get "type").map AttrVal.str,
    oldX := x, oldY := y, oldW := w, oldH := h,
    newX := x + dx, newY := y + dy, newW := w + dw, newH := h + dh,
    elemIdx := i }

/-- The collection loop of `modify_controls` (lines 75–105): walk the
controls from position `i`, counting `found` for a type match, recording
a `Change` when all four attributes parse, and counting `skipped` when
the parse raises. Returns `(found, skipped, changes)`. -/
def scan (sel : List String) (dx dy dw dh : ℚ) : ℕ → List Elem → ℕ × ℕ × List Change
  | _, [] => (0, 0, [])
  | i, c :: rest =>
    let r := scan sel dx dy dw dh (i + 1) rest
    if matchedBy sel c then
      match getNum c "x", getNum c "y", getNum c "width", getNum c "height" with
      | some x, some y, some w, some h =>
        (r.1 + 1, r.2.1, mkChange dx dy dw dh i c x y w h :: r.2.2)
      | _, _, _, _ => (r.1 + 1, r.2.1 + 1, r.2.2)
    else r

/-- The string written back by `control.set(attr, str(value))`: the model
of Python's `str` on a float, which round-trips through `float()`. -/
def floatRepr (q : ℚ) : String :=
  toString q

/-- An attribute value as written back by the apply loop. -/
def writeBack (q : ℚ) : AttrVal :=
  .num (floatRepr q) q

/-- Applying one recorded change to its element: the four attributes are
overwritten in the insertion order of the `new` dict (x, y, width, height). -/
def applyNewVals (ch : Change) (e : Elem) : Elem :=
  ((((e.set "x" (writeBack ch.newX)).set "y" (writeBack ch.newY)).set
      "width" (writeBack ch.newW)).set "height" (writeBack ch.newH))

/-- In-place mutation of the element a change refers to, on the list model. -/
def updateAt : ℕ → (Elem → Elem) → List Elem → List Elem
  | _, _, [] => []
  | 0, f, c :: rest => f c :: rest
  | i + 1, f, c :: rest => c :: updateAt i f rest

/-- The apply loop (lines 109–114): each recorded change is written to its
element. -/
def applyAll (chs : List Change) (ui : List Elem) : List Elem :=
  chs.foldl (fun cs ch => updateAt ch.elemIdx (applyNewVals ch) cs) ui

/-- Result of `modify_controls`: the (possibly mutated) control list, the
stats dict, and the changes list (which is also what `_print_changes`
reports). -/
structure ModifyResult where
  controls : List Elem
  stats : Stats
  changes : List Change
deriving Repr

/-- `DSPresetModifier.modify_controls`: collect changes over the control
list, then — only when `preview` is false and some change was recorded —
write every change back and count it as modified. -/
def modify_controls (ui : List Elem) (sel : List String)
    (dx dy dw dh : ℚ) (preview : Bool) : ModifyResult :=
  let r := scan sel dx dy dw dh 0 ui
  if preview = false ∧ r.2.2 ≠ [] then
    { controls := applyAll r.2.2 ui,
      stats := { found := r.1, modified := r.2.2.length, skipped := r.2.1 },
      changes := r.2.2 }
  else
    { controls := ui,
      stats := { found := r.1, modified := 0, skipped := r.2.1 },
      changes := r.2.2 }

/-- Rendering of one attribute in the serialized output. -/
def attrText (kv : String × AttrVal) : String :=
  " " ++ kv.1 ++ "=\"" ++ kv.2.str ++ "\""

mutual

/-- Serialization of one element, ElementTree style: a self-closing tag
when there are no children, otherwise an open/close pair around the
children in order. -/
def serializeElem : Elem → String
  | .mk t attrs cs =>
    let head := "<" ++ t ++ String.join (attrs.map attrText)
    match cs with
    | [] => head ++ " />"
    | _ :: _ => head ++ ">" ++ serializeList cs ++ "</" ++ t ++ ">"

/-- Serialization of a forest of children, in order. -/
def serializeList : List Elem → String
  | [] => ""
  | c :: cs => serializeElem c ++ serializeList cs

end

/-- The XML declaration `tree.write(..., xml_declaration=True)` emits for
utf-8. -/
def xmlDecl : String :=
  "<?xml version='1.0' encoding='utf-8'?>\n"

/-- `tree.write(save_path, encoding='utf-8', xml_declaration=True)`:
declaration first, then the document. -/
def serializeDoc (root : Elem) : String :=
  xmlDecl ++ serializeElem root

/-- A filesystem: paths mapped to file contents (contents are kept as the
exact strings on disk), plus a predicate for which paths accept a write. -/
structure FS where
  files : List (String × String)
  writable : String → Bool

/-- Raised errors of the persistence layer. -/
inductive IOErr where
  | backupError
  | saveError
deriving Repr, DecidableEq

/-- `DSPresetModifier.create_backup`: read the original file and write its
content to `<file_path>.backup`, raising IOError when that fails. -/
def create_backup (fs : FS) (file_path : String) : Except IOErr FS :=
  let backup_path := file_path ++ ".backup"
  match alistGet file_path fs.files with
  | none => .error .backupError
  | some content =>
    if fs.writable backup_path then
      .ok { fs with files := alistSet backup_path content fs.files }
    else
      .error .backupError

/-- `DSPresetModifier.save`: with no explicit output path, first create the
backup (propagating its IOError, in which case nothing is serialized),
then write the serialized in-memory document to the target path. -/
def save (fs : FS) (file_path : String) (doc : Elem)
    (output_path : Option String) : Except IOErr FS :=
  let save_path := output_path.getD file_path
  let afterBackup : Except IOErr FS :=
    match output_path with
    | none => create_backup fs file_path
    | some _ => .ok fs
  match afterBackup with
  | .error e => .error e
  | .ok fs1 =>
    if fs1.writable save_path then
      .ok { fs1 with files := alistSet save_path (serializeDoc doc) fs1.files }
    else
      .error .saveError

/-- Sample control used in concrete evaluations: the spec's example knob. -/
def knobW : Elem :=
  .mk "control" [("type", .raw "knob"), ("x", .num "10" 10), ("y", .num "20" 20),
    ("width", .num "30" 30), ("height", .num "30" 30)] []

/-- Sample control with a non-numeric `width` attribute. -/
def badWidthW : Elem :=
  .mk "control" [("type", .raw "knob"), ("x", .num "10" 10),
    ("width", .raw "wide"), ("height", .num "30" 30)] []

/-- Sample control of an unselected type. -/
def labelW : Elem :=
  .mk "control" [("type", .raw "label"), ("x", .num "5" 5)] []

/-- Sample control carrying no `type` attribute at all. -/
def noTypeW : Elem :=
  .mk "control" [("x", .num "1" 1)] []

/-- Sample well-formed document with a `DecentSampler` root. -/
def docW : Elem :=
  .mk "DecentSampler" [] [.mk "ui" [] [knobW, noTypeW]]

/-- Sample well-formed document with a wrong root tag. -/
def badRootW : Elem :=
  .mk "NotASampler" [] [.mk "ui" [] [knobW]]

/-- Sample filesystem holding one preset file, with every path writable. -/
def fsW : FS :=
  { files := [("a.dspreset", "<DecentSampler />")], writable := fun _ => true }

theorem alistGet_alistSet_self {β : Type} (k : String) (v : β) (m : List (String × β)) :
    alistGet k (alistSet k v m) = some v := by
  induction m with
  | nil => simp [alistSet, alistGet]
  | cons kv rest ih =>
    obtain ⟨k', v'⟩ := kv
    by_cases h : k' = k <;> simp [alistSet, alistGet, h, ih]

theorem alistGet_alistSet_ne {β : Type} (k k' : String) (v : β) (m : List (String × β))
    (h : k' ≠ k) : alistGet k' (alistSet k v m) = alistGet k' m := by
  induction m with
  | nil => simp [alistSet, alistGet, Ne.symm h]
  | cons kv rest ih =>
    obtain ⟨k'', v''⟩ := kv
    by_cases h2 : k'' = k
    · subst h2
      simp [alistSet, alistGet, Ne.symm h]
    · by_cases h3 : k'' = k'
      · subst h3
        simp [alistSet, alistGet, h2, h]
      · simp [alistSet, alistGet, h2, h3, ih]

theorem Elem.get_set_self (e : Elem) (k : String) (v : AttrVal) :
    (e.set k v).get k = some v := by
  simp [Elem.get, Elem.set, Elem.attrib, alistGet_alistSet_self]

theorem Elem.get_set_ne (e : Elem) (k k' : String) (v : AttrVal) (h : k' ≠ k) :
    (e.set k v).get k' = e.get k' := by
  simp [Elem.get, Elem.set, Elem.attrib, alistGet_alistSet_ne _ _ _ _ h]

theorem Elem.tag_set (e : Elem) (k : String) (v : AttrVal) :
    (e.set k v).tag = e.tag := by
  cases e
  simp [Elem.set, Elem.tag]

theorem applyNewVals_get_x (ch : Change) (e : Elem) :
    (applyNewVals ch e).get "x" = some (writeBack ch.newX) := by
  simp [applyNewVals, Elem.get_set_self, Elem.get_set_ne]

theorem applyNewVals_get_y (ch : Change) (e : Elem) :
    (applyNewVals ch e).get "y" = some (writeBack ch.newY) := by
  simp [applyNewVals, Elem.get_set_self, Elem.get_set_ne]

theorem applyNewVals_get_width (ch : Change) (e : Elem) :
    (applyNewVals ch e).get "width" = some (writeBack ch.newW) := by
  simp [applyNewVals, Elem.get_set_self, Elem.get_set_ne]

theorem applyNewVals_get_height (ch : Change) (e : Elem) :
    (applyNewVals ch e).get "height" = some (writeBack ch.newH) := by
  simp [applyNewVals, Elem.get_set_self, Elem.get_set_ne]

theorem applyNewVals_get_type (ch : Change) (e : Elem) :
    (applyNewVals ch e).get "type" = e.get "type" := by
  simp [applyNewVals, Elem.get_set_ne]

theorem getNum_applyNewVals_x (ch : Change) (e : Elem) :
    getNum (applyNewVals ch e) "x" = some ch.newX := by
  simp [getNum, applyNewVals_get_x, writeBack, AttrVal.pyFloat]

theorem getNum_applyNewVals_y (ch : Change) (e : Elem) :
    getNum (applyNewVals ch e) "y" = some ch.newY := by
  simp [getNum, applyNewVals_get_y, writeBack, AttrVal.pyFloat]

theorem getNum_applyNewVals_width (ch : Change) (e : Elem) :
    getNum (applyNewVals ch e) "width" = some ch.newW := by
  simp [getNum, applyNewVals_get_width, writeBack, AttrVal.pyFloat]

theorem getNum_applyNewVals_height (ch : Change) (e : Elem) :
    getNum (applyNewVals ch e) "height" = some ch.newH := by
  simp [getNum, applyNewVals_get_height, writeBack, AttrVal.pyFloat]

theorem matchedBy_applyNewVals (sel : List String) (ch : Change) (e : Elem) :
    matchedBy sel (applyNewVals ch e) = matchedBy sel e := by
  simp [matchedBy, applyNewVals_get_type]

theorem parsesOk_applyNewVals (ch : Change) (e : Elem) :
    parsesOk (applyNewVals ch e) = true := by
  simp [parsesOk, getNum_applyNewVals_x, getNum_applyNewVals_y,
    getNum_applyNewVals_width, getNum_applyNewVals_height]

theorem updateAt_getElem_self (i : ℕ) (f : Elem → Elem) (l : List Elem) :
    (updateAt i f l)[i]? = (l[i]?).map f := by
  induction l generalizing i with
  | nil => simp [updateAt]
  | cons c rest ih =>
    cases i with
    | zero => simp [updateAt]
    | succ j => simp [updateAt, ih]

theorem updateAt_getElem_ne (i j : ℕ) (f : Elem → Elem) (l : List Elem) (h : j ≠ i) :
    (updateAt i f l)[j]? = l[j]? := by
  induction l generalizing i j with
  | nil => simp [updateAt]
  | cons c rest ih =>
    cases i with
    | zero =>
      cases j with
      | zero => exact absurd rfl h
      | succ j' => simp [updateAt]
    | succ i' =>
      cases j with
      | zero => simp [updateAt]
      | succ j' => simpa [updateAt] using ih i' j' (by omega)

theorem scan_found (sel : List String) (dx dy dw dh : ℚ) (i : ℕ) (ui : List Elem) :
    (scan sel dx dy dw dh i ui).1 = ui.countP (matchedBy sel) := by
  induction ui generalizing i with
  | nil => simp [scan]
  | cons c rest ih =>
    simp only [scan]
    by_cases hm : matchedBy sel c
    · rcases hx : getNum c "x" with _ | x <;> rcases hy : getNum c "y" with _ | y <;>
        rcases hw : getNum c "width" with _ | w <;> rcases hh2 : getNum c "height" with _ | h <;>
        simp [hm, hx, hy, hw, hh2, ih, List.countP_cons]
    · simp [hm, ih, List.countP_cons]

/-- The predicate for a skipped control: type matched but a geometry
attribute failed to parse. -/
def skippedP (sel : List String) (c : Elem) : Bool :=
  matchedBy sel c && !parsesOk c

/-- The predicate for a control that gets a change record: type matched
and all four geometry attributes parsed. -/
def changedP (sel : List String) (c : Elem) : Bool :=
  matchedBy sel c && parsesOk c

theorem scan_skipped (sel : List String) (dx dy dw dh : ℚ) (i : ℕ) (ui : List Elem) :
    (scan sel dx dy dw dh i ui).2.1 = ui.countP (skippedP sel) := by
  induction ui generalizing i with
  | nil => simp [scan]
  | cons c rest ih =>
    simp only [scan]
    by_cases hm : matchedBy sel c
    · rcases hx : getNum c "x" with _ | x <;> rcases hy : getNum c "y" with _ | y <;>
        rcases hw : getNum c "width" with _ | w <;> rcases hh2 : getNum c "height" with _ | h <;>
        simp [hm, hx, hy, hw, hh2, ih, List.countP_cons, skippedP, parsesOk]
    · simp [hm, ih, List.countP_cons, skippedP]

theorem scan_changes_length (sel : List String) (dx dy dw dh : ℚ) (i : ℕ) (ui : List Elem) :
    (scan sel dx dy dw dh i ui).2.2.length = ui.countP (changedP sel) := by
  induction ui generalizing i with
  | nil => simp [scan]
  | cons c rest ih =>
    simp only [scan]
    by_cases hm : matchedBy sel c
    · rcases hx : getNum c "x" with _ | x <;> rcases hy : getNum c "y" with _ | y <;>
        rcases hw : getNum c "width" with _ | w <;> rcases hh2 : getNum c "height" with _ | h <;>
        simp [hm, hx, hy, hw, hh2, ih, List.countP_cons, changedP, parsesOk]
    · simp [hm, ih, List.countP_cons, changedP]

theorem scan_mem_spec (sel : List String) (dx dy dw dh : ℚ) (i : ℕ) (ui : List Elem) :
    ∀ ch ∈ (scan sel dx dy dw dh i ui).2.2, ∃ j c, ch.elemIdx = i + j ∧ ui[j]? = some c ∧
      matchedBy sel c = true ∧
      getNum c "x" = some ch.oldX ∧ getNum c "y" = some ch.oldY ∧
      getNum c "width" = some ch.oldW ∧ getNum c "height" = some ch.oldH ∧
      ch.newX = ch.oldX + dx ∧ ch.newY = ch.oldY + dy ∧
      ch.newW = ch.oldW + dw ∧ ch.newH = ch.oldH + dh := by
  induction ui generalizing i with
  | nil => simp [scan]
  | cons c rest ih =>
    intro ch hch
    have tailcase : ch ∈ (scan sel dx dy dw dh (i + 1) rest).2.2 →
        ∃ j c', ch.elemIdx = i + j ∧ (c :: rest)[j]? = some c' ∧
          matchedBy sel c' = true ∧
          getNum c' "x" = some ch.oldX ∧ getNum c' "y" = some ch.oldY ∧
          getNum c' "width" = some ch.oldW ∧ getNum c' "height" = some ch.oldH ∧
          ch.newX = ch.oldX + dx ∧ ch.newY = ch.oldY + dy ∧
          ch.newW = ch.oldW + dw ∧ ch.newH = ch.oldH + dh := by
      intro hmem
      obtain ⟨j, c', hj, hget, hrest⟩ := ih (i + 1) ch hmem
      exact ⟨j + 1, c', by omega, by simpa using hget, hrest⟩
    by_cases hm : matchedBy sel c
    · rcases hx : getNum c "x" with _ | x <;> rcases hy : getNum c "y" with _ | y <;>
        rcases hw : getNum c "width" with _ | w <;> rcases hh2 : getNum c "height" with _ | h <;>
        simp only [scan, hm, hx, hy, hw, hh2, if_true, List.mem_cons] at hch
      all_goals try exact tailcase hch
      rcases hch with hch | hch
      · subst hch
        exact ⟨0, c, by simp [mkChange], by simp, hm, hx, hy, hw, hh2, rfl, rfl, rfl, rfl⟩
      · exact tailcase hch
    · simp only [scan, hm, if_false, Bool.false_eq_true] at hch
      exact tailcase hch

theorem scan_changes_cons (sel : List String) (dx dy dw dh : ℚ) (i : ℕ)
    (d : Elem) (rest : List Elem) (ch : Change)
    (hch : ch ∈ (scan sel dx dy dw dh (i + 1) rest).2.2) :
    ch ∈ (scan sel dx dy dw dh i (d :: rest)).2.2 := by
  simp only [scan]
  by_cases hm : matchedBy sel d
  · rcases hx : getNum d "x" with _ | x <;> rcases hy : getNum d "y" with _ | y <;>
      rcases hw : getNum d "width" with _ | w <;> rcases hh2 : getNum d "height" with _ | h <;>
      simp only [hm, hx, hy, hw, hh2, if_true, List.mem_cons]
    all_goals try exact hch
    exact Or.inr hch
  · simp only [hm, if_false, Bool.false_eq_true]
    exact hch

theorem scan_complete (sel : List String) (dx dy dw dh : ℚ) (i j : ℕ)
    (ui : List Elem) (c : Elem) (x y w h : ℚ)
    (hc : ui[j]? = some c) (hm : matchedBy sel c = true)
    (hx : getNum c "x" = some x) (hy : getNum c "y" = some y)
    (hw : getNum c "width" = some w) (hh2 : getNum c "height" = some h) :
    mkChange dx dy dw dh (i + j) c x y w h ∈ (scan sel dx dy dw dh i ui).2.2 := by
  induction ui generalizing i j with
  | nil => simp at hc
  | cons d rest ih =>
    cases j with
    | zero =>
      have hd : d = c := by simpa using hc
      subst hd
      simp only [scan, hm, hx, hy, hw, hh2, if_true]
      exact List.mem_cons_self _ _
    | succ j' =>
      have hidx : i + (j' + 1) = (i + 1) + j' := by omega
      rw [hidx]
      exact scan_changes_cons sel dx dy dw dh i d rest _
        (ih (i + 1) j' (by simpa using hc))

theorem scan_idx_lb (sel : List String) (dx dy dw dh : ℚ) (i : ℕ) (ui : List Elem) :
    ∀ ch ∈ (scan sel dx dy dw dh i ui).2.2, i ≤ ch.elemIdx := by
  intro ch hch
  obtain ⟨j, c, hj, _⟩ := scan_mem_spec sel dx dy dw dh i ui ch hch
  omega

theorem scan_pairwise (sel : List String) (dx dy dw dh : ℚ) (i : ℕ) (ui : List Elem) :
    (scan sel dx dy dw dh i ui).2.2.Pairwise (fun a b => a.elemIdx < b.elemIdx) := by
  induction ui generalizing i with
  | nil => simp [scan]
  | cons c rest ih =>
    simp only [scan]
    by_cases hm : matchedBy sel c
    · rcases hx : getNum c "x" with _ | x <;> rcases hy : getNum c "y" with _ | y <;>
        rcases hw : getNum c "width" with _ | w <;> rcases hh2 : getNum c "height" with _ | h <;>
        simp only [hm, hx, hy, hw, hh2, if_true]
      all_goals try exact ih (i + 1)
      refine List.Pairwise.cons ?_ (ih (i + 1))
      intro ch hch
      have := scan_idx_lb sel dx dy dw dh (i + 1) rest ch hch
      show i < ch.elemIdx
      omega
    · simp only [hm, if_false, Bool.false_eq_true]
      exact ih (i + 1)

theorem applyAll_getElem_notMem (chs : List Change) (ui : List Elem) (k : ℕ)
    (h : ∀ ch ∈ chs, ch.elemIdx ≠ k) :
    (applyAll chs ui)[k]? = ui[k]? := by
  induction chs generalizing ui with
  | nil => simp [applyAll]
  | cons a rest ih =>
    have ha : a.elemIdx ≠ k := h a (List.mem_cons_self _ _)
    have hrest : ∀ ch ∈ rest, ch.elemIdx ≠ k :=
      fun ch hch => h ch (List.mem_cons_of_mem _ hch)
    calc (applyAll (a :: rest) ui)[k]?
        = (applyAll rest (updateAt a.elemIdx (applyNewVals a) ui))[k]? := rfl
      _ = (updateAt a.elemIdx (applyNewVals a) ui)[k]? := ih _ hrest
      _ = ui[k]? := updateAt_getElem_ne _ _ _ _ (Ne.symm ha)

theorem applyAll_getElem_mem (chs : List Change) (ui : List Elem)
    (hp : chs.Pairwise (fun a b => a.elemIdx < b.elemIdx))
    (ch : Change) (hch : ch ∈ chs) :
    (applyAll chs ui)[ch.elemIdx]? = (ui[ch.elemIdx]?).map (applyNewVals ch) := by
  induction chs generalizing ui with
  | nil => simp at hch
  | cons a rest ih =>
    rcases List.mem_cons.mp hch with hch | hch
    · subst hch
      have hrest : ∀ c ∈ rest, c.elemIdx ≠ ch.elemIdx := by
        intro c hc
        have := (List.pairwise_cons.mp hp).1 c hc
        omega
      calc (applyAll (ch :: rest) ui)[ch.elemIdx]?
          = (applyAll rest (updateAt ch.elemIdx (applyNewVals ch) ui))[ch.elemIdx]? := rfl
        _ = (updateAt ch.elemIdx (applyNewVals ch) ui)[ch.elemIdx]? :=
            applyAll_getElem_notMem _ _ _ hrest
        _ = (ui[ch.elemIdx]?).map (applyNewVals ch) := updateAt_getElem_self _ _ _
    · have hne : ch.elemIdx ≠ a.elemIdx := by
        have := (List.pairwise_cons.mp hp).1 ch hch
        omega
      calc (applyAll (a :: rest) ui)[ch.elemIdx]?
          = (applyAll rest (updateAt a.elemIdx (applyNewVals a) ui))[ch.elemIdx]? := rfl
        _ = ((updateAt a.elemIdx (applyNewVals a) ui)[ch.elemIdx]?).map (applyNewVals ch) :=
            ih _ (List.pairwise_cons.mp hp).2 hch
        _ = (ui[ch.elemIdx]?).map (applyNewVals ch) := by
            rw [updateAt_getElem_ne _ _ _ _ hne]

theorem modify_controls_preview (ui : List Elem) (sel : List String) (dx dy dw dh : ℚ) :
    modify_controls ui sel dx dy dw dh true =
      { controls := ui,
        stats := { found := (scan sel dx dy dw dh 0 ui).1, modified := 0,
                   skipped := (scan sel dx dy dw dh 0 ui).2.1 },
        changes := (scan sel dx dy dw dh 0 ui).2.2 } := by
  simp [modify_controls]

theorem modify_controls_apply (ui : List Elem) (sel : List String) (dx dy dw dh : ℚ) :
    modify_controls ui sel dx dy dw dh false =
      { controls := applyAll (scan sel dx dy dw dh 0 ui).2.2 ui,
        stats := { found := (scan sel dx dy dw dh 0 ui).1,
                   modified := (scan sel dx dy dw dh 0 ui).2.2.length,
                   skipped := (scan sel dx dy dw dh 0 ui).2.1 },
        changes := (scan sel dx dy dw dh 0 ui).2.2 } := by
  by_cases h : (scan sel dx dy dw dh 0 ui).2.2 = []
  · simp [modify_controls, h, applyAll]
  · simp [modify_controls, h]

/-- Total of all occurrence counts recorded in a control-type index. -/
def sumCounts (m : List (String × ℕ)) : ℕ :=
  (m.map Prod.snd).sum

theorem sumCounts_bumpType (m : List (String × ℕ)) (c : Elem) :
    sumCounts (bumpType m c) = sumCounts m + 1 := by
  unfold bumpType
  generalize typeKey c = k
  induction m with
  | nil => simp [alistSet, alistGet, sumCounts]
  | cons kv rest ih =>
    obtain ⟨k', v'⟩ := kv
    by_cases h : k' = k
    · subst h
      simp [alistSet, alistGet, sumCounts]
      omega
    · simp only [alistSet, alistGet, h, if_false, sumCounts, List.map_cons, List.sum_cons] at ih ⊢
      omega

theorem sumCounts_foldl_bumpType (cs : List Elem) (m : List (String × ℕ)) :
    sumCounts (cs.foldl bumpType m) = sumCounts m + cs.length := by
  induction cs generalizing m with
  | nil => simp
  | cons c rest ih =>
    simp only [List.foldl_cons, List.length_cons, ih, sumCounts_bumpType]
    omega

theorem sumCounts_buildIndex (cs : List Elem) :
    sumCounts (buildIndex cs) = cs.length := by
  rw [buildIndex, sumCounts_foldl_bumpType]
  simp [sumCounts]

theorem alistGet_bumpType (m : List (String × ℕ)) (c : Elem) (k : String) :
    (alistGet k (bumpType m c)).getD 0 =
      (alistGet k m).getD 0 + (if typeKey c = k then 1 else 0) := by
  unfold bumpType
  by_cases h : typeKey c = k
  · subst h
    simp [alistGet_alistSet_self]
  · simp [alistGet_alistSet_ne _ _ _ _ (fun hh => h hh.symm), h]

theorem alistGet_foldl_bumpType (cs : List Elem) (m : List (String × ℕ)) (k : String) :
    (alistGet k (cs.foldl bumpType m)).getD 0 =
      (alistGet k m).getD 0 + cs.countP (fun c => typeKey c = k) := by
  induction cs generalizing m with
  | nil => simp
  | cons c rest ih =>
    simp only [List.foldl_cons, ih, alistGet_bumpType, List.countP_cons]
    by_cases h : typeKey c = k <;> simp [h] <;> omega

theorem alistGet_buildIndex (cs : List Elem) (k : String) :
    (alistGet k (buildIndex cs)).getD 0 = cs.countP (fun c => typeKey c = k) := by
  simp [buildIndex, alistGet_foldl_bumpType, alistGet]

theorem alistGet_buildIndex_pos (cs : List Elem) (k : String)
    (h : 0 < cs.countP (fun c => typeKey c = k)) :
    alistGet k (buildIndex cs) = some (cs.countP (fun c => typeKey c = k)) := by
  have := alistGet_buildIndex cs k
  rcases hg : alistGet k (buildIndex cs) with _ | n
  · rw [hg] at this
    simp at this
    omega
  · rw [hg] at this
    simp at this
    rw [this]

mutual

theorem descTag_length (t : String) :
    ∀ e : Elem, (descTag t e).length + (if e.tag = t then 1 else 0) = countTag t e
  | .mk tg a cs => by
    simp only [descTag, countTag, Elem.tag]
    have := descTagList_length t cs
    omega

theorem descTagList_length (t : String) :
    ∀ l : List Elem, (descTagList t l).length = countTagList t l
  | [] => by simp [descTagList, countTagList]
  | c :: cs => by
    simp only [descTagList, countTagList, List.length_append]
    have h1 := descTag_length t c
    have h2 := descTagList_length t cs
    by_cases h : c.tag = t <;> simp only [h, if_true, if_false] at h1 ⊢ <;>
      simp_all <;> omega

end

theorem applied_control_at (ui : List Elem) (sel : List String) (dx dy dw dh : ℚ)
    (i : ℕ) (c : Elem) (x y w h : ℚ)
    (hc : ui[i]? = some c) (hm : matchedBy sel c = true)
    (hx : getNum c "x" = some x) (hy : getNum c "y" = some y)
    (hw : getNum c "width" = some w) (hh2 : getNum c "height" = some h) :
    ∃ ch ∈ (modify_controls ui sel dx dy dw dh false).changes,
      ch.elemIdx = i ∧ ch.oldX = x ∧ ch.oldY = y ∧ ch.oldW = w ∧ ch.oldH = h ∧
      ch.newX = x + dx ∧ ch.newY = y + dy ∧ ch.newW = w + dw ∧ ch.newH = h + dh ∧
      (modify_controls ui sel dx dy dw dh false).controls[i]? =
        some (applyNewVals ch c) := by
  have hmem := scan_complete sel dx dy dw dh 0 i ui c x y w h hc hm hx hy hw hh2
  rw [Nat.zero_add] at hmem
  refine ⟨mkChange dx dy dw dh i c x y w h,
    ?_, rfl, rfl, rfl, rfl, rfl, rfl, rfl, rfl, rfl, ?_⟩
  · rw [modify_controls_apply]
    exact hmem
  · rw [modify_controls_apply]
    have happ := applyAll_getElem_mem (scan sel dx dy dw dh 0 ui).2.2 ui
      (scan_pairwise sel dx dy dw dh 0 ui) _ hmem
    simpa [hc, mkChange] using happ

theorem not_changed_no_record (ui : List Elem) (sel : List String) (dx dy dw dh : ℚ)
    (i : ℕ) (c : Elem) (hc : ui[i]? = some c)
    (hnc : changedP sel c = false) :
    ∀ ch ∈ (scan sel dx dy dw dh 0 ui).2.2, ch.elemIdx ≠ i := by
  intro ch hch hi
  obtain ⟨j, c', hj, hget, hm', hx, hy, hw, hh2, _⟩ :=
    scan_mem_spec sel dx dy dw dh 0 ui ch hch
  have hji : j = i := by omega
  subst hji
  rw [hc] at hget
  injection hget with hcc
  subst hcc
  have : changedP sel c = true := by
    simp [changedP, parsesOk, hm', hx, hy, hw, hh2]
  rw [this] at hnc
  simp at hnc

theorem no_change_at (ui : List Elem) (sel : List String) (dx dy dw dh : ℚ)
    (preview : Bool) (i : ℕ)
    (h : ∀ ch ∈ (scan sel dx dy dw dh 0 ui).2.2, ch.elemIdx ≠ i) :
    (modify_controls ui sel dx dy dw dh preview).controls[i]? = ui[i]? := by
  cases preview with
  | true => rw [modify_controls_preview]
  | false =>
    rw [modify_controls_apply]
    exact applyAll_getElem_notMem _ _ _ h

/-- C1: `modify_controls` with `preview=true` leaves the document (every
control element and all its attributes) unchanged, and a subsequent call
with `preview=false` and the same arguments computes exactly the same
change records — in particular the same new x, y, width, height for every
matched control. -/
theorem claim_preview_no_mutation (ui : List Elem) (sel : List String) (dx dy dw dh : ℚ) :
    (modify_controls ui sel dx dy dw dh true).controls = ui ∧
    (modify_controls ui sel dx dy dw dh true).changes =
      (modify_controls ui sel dx dy dw dh false).changes := by
  rw [modify_controls_preview, modify_controls_apply]
  exact ⟨rfl, rfl⟩

/-- C4: the spec's worked example — one knob at (x=10, y=20, 30×30),
selection containing "knob", offsets (5, −5, 0, 10), apply mode — ends
with numeric values (15, 15, 30, 40) and stats found=1, modified=1,
skipped=0. -/
theorem claim_example_knob :
    (modify_controls [knobW] ["knob"] 5 (-5) 0 10 false).stats =
      { found := 1, modified := 1, skipped := 0 } ∧
    ∃ c', (modify_controls [knobW] ["knob"] 5 (-5) 0 10 false).controls[0]? = some c' ∧
      getNum c' "x" = some 15 ∧ getNum c' "y" = some 15 ∧
      getNum c' "width" = some 30 ∧ getNum c' "height" = some 40 := by
  constructor
  · decide
  · obtain ⟨ch, hch, hidx, hox, hoy, how, hoh, hnx, hny, hnw, hnh, hctrl⟩ :=
      applied_control_at [knobW] ["knob"] 5 (-5) 0 10 0 knobW 10 20 30 30
        rfl (by decide) rfl rfl rfl rfl
    refine ⟨_, hctrl, ?_, ?_, ?_, ?_⟩
    · rw [getNum_applyNewVals_x, hnx]
      norm_num
    · rw [getNum_applyNewVals_y, hny]
      norm_num
    · rw [getNum_applyNewVals_width, hnw]
      norm_num
    · rw [getNum_applyNewVals_height, hnh]
      norm_num

/-- C5: once the input has parsed as well-formed XML, loading fails with
the structure error exactly when the root tag differs from
`DecentSampler`, whatever the root's attributes and content. -/
theorem claim_wrong_root (tag : String) (attrs : List (String × AttrVal))
    (children : List Elem) (h : tag ≠ "DecentSampler") :
    loadTree (.mk tag attrs children) = .error .structureError := by
  simp [loadTree, Elem.tag, h]

theorem claim_wrong_root_witness :
    ("NotASampler" : String) ≠ "DecentSampler" ∧
      loadTree badRootW = .error .structureError :=
  ⟨by decide, claim_wrong_root "NotASampler" [] [.mk "ui" [] [knobW]] (by decide)⟩

/-- C6: a document with a `DecentSampler` root always loads, and the
control-type index's counts sum to the number of `control` elements
anywhere in the tree. -/
theorem claim_valid_root_load (root : Elem) (h : root.tag = "DecentSampler") :
    ∃ p, loadTree root = .ok p ∧
      sumCounts p.control_types_found = countTag "control" root := by
  have hload : loadTree root =
      .ok ⟨descTag "control" root, buildIndex (descTag "control" root)⟩ := by
    simp [loadTree, h]
  refine ⟨_, hload, ?_⟩
  show sumCounts (buildIndex (descTag "control" root)) = countTag "control" root
  rw [sumCounts_buildIndex]
  have hlen := descTag_length "control" root
  rw [h] at hlen
  simpa using hlen

theorem claim_valid_root_load_witness :
    docW.tag = "DecentSampler" ∧
      ∃ p, loadTree docW = .ok p ∧
        sumCounts p.control_types_found = countTag "control" docW :=
  ⟨rfl, claim_valid_root_load docW rfl⟩

theorem parsesOk_eq_true_iff (c : Elem) : parsesOk c = true ↔
    (∃ x, getNum c "x" = some x) ∧ (∃ y, getNum c "y" = some y) ∧
    (∃ w, getNum c "width" = some w) ∧ (∃ h, getNum c "height" = some h) := by
  simp [parsesOk, Option.isSome_iff_exists, and_assoc]

/-- C2: applying offsets (dx, dy, dw, dh) in apply mode and then applying
(−dx, −dy, −dw, −dh) restores the original numeric x, y, width, height of
every control the first call modified (those whose type matched and whose
attributes parsed). Exact rational arithmetic stands in for
floating-point, so the restoration is exact. -/
theorem claim_inverse_offsets (ui : List Elem) (sel : List String) (dx dy dw dh : ℚ)
    (i : ℕ) (c : Elem) (hc : ui[i]? = some c)
    (hm : matchedBy sel c = true) (hp : parsesOk c = true) :
    ∃ ch ∈ (modify_controls ui sel dx dy dw dh false).changes, ch.elemIdx = i ∧
      ∃ c2,
        (modify_controls (modify_controls ui sel dx dy dw dh false).controls
            sel (-dx) (-dy) (-dw) (-dh) false).controls[i]? = some c2 ∧
        getNum c2 "x" = getNum c "x" ∧ getNum c2 "y" = getNum c "y" ∧
        getNum c2 "width" = getNum c "width" ∧ getNum c2 "height" = getNum c "height" := by
  obtain ⟨⟨x, hx⟩, ⟨y, hy⟩, ⟨w, hw⟩, ⟨h, hh2⟩⟩ := (parsesOk_eq_true_iff c).mp hp
  obtain ⟨ch1, hch1, hidx1, ho1x, ho1y, ho1w, ho1h, hn1x, hn1y, hn1w, hn1h, hctrl1⟩ :=
    applied_control_at ui sel dx dy dw dh i c x y w h hc hm hx hy hw hh2
  have hm1 : matchedBy sel (applyNewVals ch1 c) = true := by
    rw [matchedBy_applyNewVals]
    exact hm
  obtain ⟨ch2, hch2, hidx2, ho2x, ho2y, ho2w, ho2h, hn2x, hn2y, hn2w, hn2h, hctrl2⟩ :=
    applied_control_at (modify_controls ui sel dx dy dw dh false).controls
      sel (-dx) (-dy) (-dw) (-dh) i (applyNewVals ch1 c)
      ch1.newX ch1.newY ch1.newW ch1.newH hctrl1 hm1
      (getNum_applyNewVals_x ch1 c) (getNum_applyNewVals_y ch1 c)
      (getNum_applyNewVals_width ch1 c) (getNum_applyNewVals_height ch1 c)
  refine ⟨ch1, hch1, hidx1, applyNewVals ch2 (applyNewVals ch1 c), hctrl2, ?_, ?_, ?_, ?_⟩
  · rw [getNum_applyNewVals_x, hx, hn2x, hn1x, Option.some_inj]
    ring
  · rw [getNum_applyNewVals_y, hy, hn2y, hn1y, Option.some_inj]
    ring
  · rw [getNum_applyNewVals_width, hw, hn2w, hn1w, Option.some_inj]
    ring
  · rw [getNum_applyNewVals_height, hh2, hn2h, hn1h, Option.some_inj]
    ring

theorem claim_inverse_offsets_witness :
    [knobW][0]? = some knobW ∧ matchedBy ["knob"] knobW = true ∧
      parsesOk knobW = true ∧
      ∃ ch ∈ (modify_controls [knobW] ["knob"] 5 (-5) 0 10 false).changes, ch.elemIdx = 0 ∧
        ∃ c2,
          (modify_controls (modify_controls [knobW] ["knob"] 5 (-5) 0 10 false).controls
              ["knob"] (-5) (-(-5)) (-0) (-10) false).controls[0]? = some c2 ∧
          getNum c2 "x" = getNum knobW "x" ∧ getNum c2 "y" = getNum knobW "y" ∧
          getNum c2 "width" = getNum knobW "width" ∧
          getNum c2 "height" = getNum knobW "height" :=
  ⟨rfl, by decide, by decide,
    claim_inverse_offsets [knobW] ["knob"] 5 (-5) 0 10 0 knobW rfl (by decide) (by decide)⟩

/-- C10: an apply-mode pass overwrites all four geometry attributes of
every matched, successfully parsed control with the written-back string
of the computed float — including attributes whose offset is zero and
attributes that were absent (treated as old value 0) — so afterwards the
control carries all four attributes. -/
theorem claim_apply_writes_all_four (ui : List Elem) (sel : List String)
    (dx dy dw dh : ℚ) (i : ℕ) (c : Elem)
    (hc : ui[i]? = some c) (hm : matchedBy sel c = true) (hp : parsesOk c = true) :
    ∃ x y w h, getNum c "x" = some x ∧ getNum c "y" = some y ∧
      getNum c "width" = some w ∧ getNum c "height" = some h ∧
      (c.get "x" = none → x = 0) ∧ (c.get "y" = none → y = 0) ∧
      (c.get "width" = none → w = 0) ∧ (c.get "height" = none → h = 0) ∧
      ∃ c', (modify_controls ui sel dx dy dw dh false).controls[i]? = some c' ∧
        c'.get "x" = some (writeBack (x + dx)) ∧
        c'.get "y" = some (writeBack (y + dy)) ∧
        c'.get "width" = some (writeBack (w + dw)) ∧
        c'.get "height" = some (writeBack (h + dh)) := by
  obtain ⟨⟨x, hx⟩, ⟨y, hy⟩, ⟨w, hw⟩, ⟨h, hh2⟩⟩ := (parsesOk_eq_true_iff c).mp hp
  obtain ⟨ch1, hch1, hidx1, ho1x, ho1y, ho1w, ho1h, hn1x, hn1y, hn1w, hn1h, hctrl1⟩ :=
    applied_control_at ui sel dx dy dw dh i c x y w h hc hm hx hy hw hh2
  refine ⟨x, y, w, h, hx, hy, hw, hh2, ?_, ?_, ?_, ?_,
    applyNewVals ch1 c, hctrl1, ?_, ?_, ?_, ?_⟩
  · intro hnone
    rw [getNum, hnone] at hx
    exact (Option.some_inj.mp hx).symm
  · intro hnone
    rw [getNum, hnone] at hy
    exact (Option.some_inj.mp hy).symm
  · intro hnone
    rw [getNum, hnone] at hw
    exact (Option.some_inj.mp hw).symm
  · intro hnone
    rw [getNum, hnone] at hh2
    exact (Option.some_inj.mp hh2).symm
  · rw [applyNewVals_get_x, hn1x]
  · rw [applyNewVals_get_y, hn1y]
  · rw [applyNewVals_get_width, hn1w]
  · rw [applyNewVals_get_height, hn1h]

theorem claim_apply_writes_all_four_witness :
    [knobW][0]? = some knobW ∧ matchedBy ["knob"] knobW = true ∧
      parsesOk knobW = true ∧
      ∃ x y w h, getNum knobW "x" = some x ∧ getNum knobW "y" = some y ∧
        getNum knobW "width" = some w ∧ getNum knobW "height" = some h ∧
        (knobW.get "x" = none → x = 0) ∧ (knobW.get "y" = none → y = 0) ∧
        (knobW.get "width" = none → w = 0) ∧ (knobW.get "height" = none → h = 0) ∧
        ∃ c', (modify_controls [knobW] ["knob"] 5 (-5) 0 10 false).controls[0]? = some c' ∧
          c'.get "x" = some (writeBack (x + 5)) ∧
          c'.get "y" = some (writeBack (y + -5)) ∧
          c'.get "width" = some (writeBack (w + 0)) ∧
          c'.get "height" = some (writeBack (h + 10)) :=
  ⟨rfl, by decide, by decide,
    claim_apply_writes_all_four [knobW] ["knob"] 5 (-5) 0 10 0 knobW rfl
      (by decide) (by decide)⟩

/-- C3: a selected control with a non-numeric `width` is skipped — it
contributes exactly 1 to `skipped` (which counts precisely the matched
controls that fail to parse), its element is left entirely unchanged by
an apply pass, and the rest of the controls are still processed
(`found`, `skipped` and `modified` are each a count over the whole
control list). -/
theorem claim_nonnumeric_width (ui : List Elem) (sel : List String) (dx dy dw dh : ℚ)
    (i : ℕ) (c : Elem) (s : String)
    (hc : ui[i]? = some c) (hm : matchedBy sel c = true)
    (hwraw : c.get "width" = some (.raw s)) :
    skippedP sel c = true ∧
    (modify_controls ui sel dx dy dw dh false).stats.skipped = ui.countP (skippedP sel) ∧
    (modify_controls ui sel dx dy dw dh false).controls[i]? = some c ∧
    (modify_controls ui sel dx dy dw dh false).stats.found = ui.countP (matchedBy sel) ∧
    (modify_controls ui sel dx dy dw dh false).stats.modified = ui.countP (changedP sel) := by
  have hwnone : getNum c "width" = none := by
    rw [getNum, hwraw]
    rfl
  have hsk : skippedP sel c = true := by
    simp [skippedP, hm, parsesOk, hwnone]
  have hnc : changedP sel c = false := by
    simp [changedP, hm, parsesOk, hwnone]
  refine ⟨hsk, ?_, ?_, ?_, ?_⟩
  · simp [modify_controls_apply, scan_skipped]
  · have hno := no_change_at ui sel dx dy dw dh false i
      (not_changed_no_record ui sel dx dy dw dh i c hc hnc)
    rw [hno, hc]
  · simp [modify_controls_apply, scan_found]
  · simp [modify_controls_apply, scan_changes_length]

theorem claim_nonnumeric_width_witness :
    [badWidthW][0]? = some badWidthW ∧ matchedBy ["knob"] badWidthW = true ∧
      badWidthW.get "width" = some (.raw "wide") ∧
      (skippedP ["knob"] badWidthW = true ∧
        (modify_controls [badWidthW] ["knob"] 1 2 3 4 false).stats.skipped =
          [badWidthW].countP (skippedP ["knob"]) ∧
        (modify_controls [badWidthW] ["knob"] 1 2 3 4 false).controls[0]? = some badWidthW ∧
        (modify_controls [badWidthW] ["knob"] 1 2 3 4 false).stats.found =
          [badWidthW].countP (matchedBy ["knob"]) ∧
        (modify_controls [badWidthW] ["knob"] 1 2 3 4 false).stats.modified =
          [badWidthW].countP (changedP ["knob"])) :=
  ⟨rfl, by decide, rfl,
    claim_nonnumeric_width [badWidthW] ["knob"] 1 2 3 4 0 badWidthW "wide"
      rfl (by decide) rfl⟩

/-- C7: a control whose `type` attribute value is not in the selection is
never matched: it contributes to neither `found` nor `modified` (each a
count over controls satisfying the respective predicate, which this
control fails), its element is never mutated, and no change record — the
content of the printed report — refers to it, in either mode. -/
theorem claim_unselected_untouched (ui : List Elem) (sel : List String)
    (dx dy dw dh : ℚ) (preview : Bool) (i : ℕ) (c : Elem) (tv : AttrVal)
    (hc : ui[i]? = some c) (ht : c.get "type" = some tv) (hns : tv.str ∉ sel) :
    matchedBy sel c = false ∧
    (modify_controls ui sel dx dy dw dh preview).controls[i]? = some c ∧
    (∀ ch ∈ (modify_controls ui sel dx dy dw dh preview).changes, ch.elemIdx ≠ i) ∧
    (modify_controls ui sel dx dy dw dh preview).stats.found = ui.countP (matchedBy sel) ∧
    (modify_controls ui sel dx dy dw dh preview).stats.modified =
      (if preview = true then 0 else ui.countP (changedP sel)) := by
  have hcont : sel.contains tv.str = false := by
    simpa using hns
  have hmf : matchedBy sel c = false := by
    rw [matchedBy, ht]
    exact hcont
  have hnc : changedP sel c = false := by
    simp [changedP, hmf]
  have hnorec := not_changed_no_record ui sel dx dy dw dh i c hc hnc
  refine ⟨hmf, ?_, ?_, ?_, ?_⟩
  · have hno := no_change_at ui sel dx dy dw dh preview i hnorec
    rw [hno, hc]
  · cases preview with
    | true =>
      rw [modify_controls_preview]
      exact hnorec
    | false =>
      rw [modify_controls_apply]
      exact hnorec
  · cases preview with
    | true => simp [modify_controls_preview, scan_found]
    | false => simp [modify_controls_apply, scan_found]
  · cases preview with
    | true => simp [modify_controls_preview]
    | false => simp [modify_controls_apply, scan_changes_length]

theorem claim_unselected_untouched_witness :
    [labelW][0]? = some labelW ∧ labelW.get "type" = some (.raw "label") ∧
      ("label" : String) ∉ ["knob"] ∧
      (matchedBy ["knob"] labelW = false ∧
        (modify_controls [labelW] ["knob"] 1 2 3 4 false).controls[0]? = some labelW ∧
        (∀ ch ∈ (modify_controls [labelW] ["knob"] 1 2 3 4 false).changes, ch.elemIdx ≠ 0) ∧
        (modify_controls [labelW] ["knob"] 1 2 3 4 false).stats.found =
          [labelW].countP (matchedBy ["knob"]) ∧
        (modify_controls [labelW] ["knob"] 1 2 3 4 false).stats.modified =
          (if false = true then 0 else [labelW].countP (changedP ["knob"]))) :=
  ⟨rfl, rfl, by decide,
    claim_unselected_untouched [labelW] ["knob"] 1 2 3 4 false 0 labelW (.raw "label")
      rfl rfl (by decide)⟩

/-- C9: a control with no `type` attribute is indexed at load time under
the key "unknown" (the index entry at "unknown" exists and counts it),
yet `modify_controls` never matches it — its element is never mutated and
no change record refers to it — even when "unknown" is in the selection,
since the membership test uses the raw `type` attribute, which is absent. -/
theorem claim_no_type_unknown (ui : List Elem) (sel : List String)
    (dx dy dw dh : ℚ) (preview : Bool) (i : ℕ) (c : Elem)
    (hc : ui[i]? = some c) (ht : c.get "type" = none) :
    typeKey c = "unknown" ∧
    (∃ n, alistGet "unknown" (buildIndex ui) = some n ∧
      n = ui.countP (fun d => typeKey d = "unknown") ∧ 0 < n) ∧
    matchedBy sel c = false ∧
    (modify_controls ui sel dx dy dw dh preview).stats.found = ui.countP (matchedBy sel) ∧
    (modify_controls ui sel dx dy dw dh preview).controls[i]? = some c ∧
    (∀ ch ∈ (modify_controls ui sel dx dy dw dh preview).changes, ch.elemIdx ≠ i) := by
  have htk : typeKey c = "unknown" := by
    rw [typeKey, ht]
  have hmem : c ∈ ui := by
    obtain ⟨hlt, rfl⟩ := List.getElem?_eq_some.mp hc
    exact List.getElem_mem hlt
  have hpos : 0 < ui.countP (fun d => typeKey d = "unknown") := by
    rw [List.countP_pos_iff]
    exact ⟨c, hmem, by simp [htk]⟩
  have hmf : matchedBy sel c = false := by
    rw [matchedBy, ht]
  have hnc : changedP sel c = false := by
    simp [changedP, hmf]
  have hnorec := not_changed_no_record ui sel dx dy dw dh i c hc hnc
  refine ⟨htk, ⟨_, alistGet_buildIndex_pos ui "unknown" hpos, rfl, hpos⟩, hmf, ?_, ?_, ?_⟩
  · cases preview with
    | true => simp [modify_controls_preview, scan_found]
    | false => simp [modify_controls_apply, scan_found]
  · have hno := no_change_at ui sel dx dy dw dh preview i hnorec
    rw [hno, hc]
  · cases preview with
    | true =>
      rw [modify_controls_preview]
      exact hnorec
    | false =>
      rw [modify_controls_apply]
      exact hnorec

theorem claim_no_type_unknown_witness :
    [noTypeW][0]? = some noTypeW ∧ noTypeW.get "type" = none ∧
      (typeKey noTypeW = "unknown" ∧
        (∃ n, alistGet "unknown" (buildIndex [noTypeW]) = some n ∧
          n = [noTypeW].countP (fun d => typeKey d = "unknown") ∧ 0 < n) ∧
        matchedBy ["unknown"] noTypeW = false ∧
        (modify_controls [noTypeW] ["unknown"] 1 2 3 4 false).stats.found =
          [noTypeW].countP (matchedBy ["unknown"]) ∧
        (modify_controls [noTypeW] ["unknown"] 1 2 3 4 false).controls[0]? = some noTypeW ∧
        (∀ ch ∈ (modify_controls [noTypeW] ["unknown"] 1 2 3 4 false).changes,
          ch.elemIdx ≠ 0)) :=
  ⟨rfl, rfl,
    claim_no_type_unknown [noTypeW] ["unknown"] 1 2 3 4 false 0 noTypeW rfl rfl⟩

theorem backup_path_ne (path : String) : path ≠ path ++ ".backup" := by
  intro h
  have hlen := congrArg String.length h
  rw [String.length_append] at hlen
  have h7 : (".backup" : String).length = 7 := rfl
  omega

/-- C8: saving with no explicit output path first writes a backup at
`<path>.backup` whose content is exactly the file's content before the
save, and only then writes the serialized document — which begins with
the XML declaration — to the original path; if the backup write fails,
`save` fails with the backup IOError and nothing is written. -/
theorem claim_save_backup (fs : FS) (path content : String) (doc : Elem)
    (hread : alistGet path fs.files = some content) :
    (fs.writable (path ++ ".backup") = false →
      save fs path doc none = .error .backupError) ∧
    (fs.writable (path ++ ".backup") = true → fs.writable path = true →
      ∃ fs', save fs path doc none = .ok fs' ∧
        alistGet (path ++ ".backup") fs'.files = some content ∧
        alistGet path fs'.files = some (serializeDoc doc) ∧
        serializeDoc doc = xmlDecl ++ serializeElem doc) := by
  constructor
  · intro hwb
    simp [save, create_backup, hread, hwb]
  · intro hwb hwp
    refine ⟨FS.mk (alistSet path (serializeDoc doc)
        (alistSet (path ++ ".backup") content fs.files)) fs.writable, ?_, ?_, ?_, rfl⟩
    · simp [save, create_backup, hread, hwb, hwp]
    · show alistGet (path ++ ".backup")
        (alistSet path (serializeDoc doc)
          (alistSet (path ++ ".backup") content fs.files)) = some content
      rw [alistGet_alistSet_ne _ _ _ _ (Ne.symm (backup_path_ne path)),
        alistGet_alistSet_self]
    · show alistGet path
        (alistSet path (serializeDoc doc)
          (alistSet (path ++ ".backup") content fs.files)) = some (serializeDoc doc)
      rw [alistGet_alistSet_self]

theorem claim_save_backup_witness :
    alistGet "a.dspreset" fsW.files = some "<DecentSampler />" ∧
      ((fsW.writable ("a.dspreset" ++ ".backup") = false →
        save fsW "a.dspreset" (.mk "DecentSampler" [] []) none = .error .backupError) ∧
      (fsW.writable ("a.dspreset" ++ ".backup") = true →
        fsW.writable "a.dspreset" = true →
        ∃ fs', save fsW "a.dspreset" (.mk "DecentSampler" [] []) none = .ok fs' ∧
          alistGet ("a.dspreset" ++ ".backup") fs'.files = some "<DecentSampler />" ∧
          alistGet "a.dspreset" fs'.files =
            some (serializeDoc (.mk "DecentSampler" [] [])) ∧
          serializeDoc (.mk "DecentSampler" [] []) =
            xmlDecl ++ serializeElem (.mk "DecentSampler" [] []))) :=
  ⟨rfl, claim_save_backup fsW "a.dspreset" "<DecentSampler />"
    (.mk "DecentSampler" [] []) rfl⟩
